import Mathlib

/-!
# Slide form controller (`static/main.js`)

A shallow embedding of the page script of the presentation generator: the
slide blocks of the form, the add / remove / renumber operations, the submit
and file-selection validators and the title character counter.

Modelling conventions

* The document is represented by what the script reads and writes.  A node
  that the script tests for `null` before use (the four named inputs of a
  block, the first selected file) is optional in the model.  A node that the
  script dereferences without a test (`#slidesContainer`, the
  `.card-header h6` of a block, the `.remove-slide-btn` of a block, the
  sibling of `#title`) is always present in the model: the script assumes the
  page template provides it.
* Every `.slide-block` of the document is a child of `#slidesContainer`, so
  `appendChild` puts a new block last in document order.
* A value typed by the user is a JavaScript string: a list of UTF-16 code
  units, so that `.length` is the length of the list.  Names, attribute
  values and texts written by the script are Lean strings.
* Numbers printed by a template literal are printed in decimal.
-/

namespace SlideForm

/-! ## JavaScript strings -/

/-- One UTF-16 code unit. -/
abbrev CodeUnit := Fin 65536

/-- A JavaScript string value: its UTF-16 code units. -/
abbrev JSString := List CodeUnit

/-- Code units removed by `String.prototype.trim`: the ECMAScript `WhiteSpace`
and `LineTerminator` productions. -/
def isTrimmable (c : CodeUnit) : Bool :=
  [0x0009, 0x000A, 0x000B, 0x000C, 0x000D, 0x0020, 0x00A0, 0x1680,
   0x2000, 0x2001, 0x2002, 0x2003, 0x2004, 0x2005, 0x2006, 0x2007,
   0x2008, 0x2009, 0x200A, 0x2028, 0x2029, 0x202F, 0x205F, 0x3000,
   0xFEFF].contains c.val

/-- `String.prototype.trim`. -/
def trim (s : JSString) : JSString :=
  ((s.dropWhile isTrimmable).reverse.dropWhile isTrimmable).reverse

/-- Truthiness of a JavaScript string: only the empty string is falsy. -/
def truthy (s : JSString) : Bool := !s.isEmpty

/-- Attribute selector `[name^="pre"]`: the value starts with `pre`. -/
def startsWith (pre s : String) : Bool := pre.data.isPrefixOf s.data

/-- Does the list `sub` occur in `s` at some position. -/
def includesChars (sub : List Char) : List Char → Bool
  | [] => sub.isEmpty
  | c :: cs => sub.isPrefixOf (c :: cs) || includesChars sub cs

/-- `String.prototype.includes`. -/
def includes (s sub : String) : Bool := includesChars sub.data s.data

/-! ## The document model -/

/-- Element kinds the selectors of the script distinguish. -/
inductive Tag where
  | input
  | textarea
  deriving DecidableEq, Repr

/-- A form control inside a slide block. -/
structure Control where
  tag : Tag
  name : String
  value : JSString
  deriving DecidableEq, Repr

/-- A `.slide-block` element: the parts of it the script touches. -/
structure Block where
  /-- Identity of the DOM node (what a closure or a timer holds on to). -/
  ident : Nat
  /-- Text of `.card-header h6`. -/
  header : String
  /-- The form controls of the block, in document order. -/
  controls : List Control
  /-- Attribute `data-slide-index`. -/
  dataSlideIndex : String
  /-- Inline `style.display` of the `.remove-slide-btn` of the block. -/
  removeDisplay : String
  /-- Whether the class `slide-removing` is set. -/
  removing : Bool
  deriving DecidableEq, Repr

/-- A selector `tag[name^="pre"]`. -/
structure Selector where
  tag : Tag
  pre : String
  deriving DecidableEq, Repr

/-- The selector `input[name^="slide_title_"]`. -/
def titleSel : Selector := ⟨Tag.input, "slide_title_"⟩
/-- The selector `textarea[name^="slide_bullets_"]`. -/
def bulletsSel : Selector := ⟨Tag.textarea, "slide_bullets_"⟩
/-- The selector `input[name^="slide_image_url_"]`. -/
def imageUrlSel : Selector := ⟨Tag.input, "slide_image_url_"⟩
/-- The selector `input[name^="slide_image_file_"]`. -/
def imageFileSel : Selector := ⟨Tag.input, "slide_image_file_"⟩

/-- The four selectors `updateSlideNumbers` looks up in a slide. -/
def fieldSelectors : List Selector := [titleSel, bulletsSel, imageUrlSel, imageFileSel]

/-- Does a control match a selector. -/
def Selector.test (sel : Selector) (c : Control) : Bool :=
  decide (c.tag = sel.tag) && startsWith sel.pre c.name

/-- Position of the first control matching the selector, as `querySelector`
picks it; `none` stands for `null`. -/
def querySelector (sel : Selector) : List Control → Option Nat
  | [] => none
  | c :: cs => if sel.test c then some 0 else (querySelector sel cs).map (· + 1)

/-- The element `querySelector` returns. -/
def queryControl (sel : Selector) (cs : List Control) : Option Control :=
  (querySelector sel cs).bind (fun k => cs[k]?)

/-- The control with its `name` property assigned. -/
def Control.rename (newName : String) (c : Control) : Control := { c with name := newName }

/-- Assignment `el.name = newName` where `el` is the result of an earlier
`querySelector`; nothing happens for `null` (the `if (el)` guard). -/
def setName (el : Option Nat) (newName : String) (cs : List Control) : List Control :=
  match el with
  | none => cs
  | some k => cs.modify (Control.rename newName) k

/-! ## Submit validation -/

/-- What the submit listener did to the event. -/
structure SubmitOutcome where
  defaultPrevented : Bool
  alert : Option String
  deriving DecidableEq, Repr

/-- The `submit` listener of `#presentationForm`, over the `.slide-block`
elements of the document. -/
def submitHandler (slides : List Block) : SubmitOutcome :=
  if slides.length = 0 then
    ⟨true, some "Please add at least one slide."⟩
  else
    let hasValidSlide := slides.foldl (fun acc slide =>
      match queryControl titleSel slide.controls with
      | some titleInput => if truthy (trim titleInput.value) then true else acc
      | none => acc) false
    if !hasValidSlide then
      ⟨true, some "Please provide a title for at least one slide."⟩
    else
      ⟨false, none⟩

/-- The block has a title input whose trimmed value is not empty. -/
def hasTitle (slide : Block) : Bool :=
  match queryControl titleSel slide.controls with
  | some titleInput => truthy (trim titleInput.value)
  | none => false

/-! ## File selection validation -/

/-- A `File` of a file input: byte size and declared media type. -/
structure FileEntry where
  size : Nat
  type : String
  deriving DecidableEq, Repr

/-- The target of a `change` event. -/
structure ChangeTarget where
  type : String
  accept : String
  files : List FileEntry
  value : String
  deriving DecidableEq, Repr

/-- What the `change` listener did. -/
structure ChangeOutcome where
  alert : Option String
  target : ChangeTarget
  deriving DecidableEq, Repr

/-- Assignment `e.target.value = ''` on a file input: the selection is dropped. -/
def clearValue (t : ChangeTarget) : ChangeTarget := { t with value := "", files := [] }

/-- The selection was refused: the user was alerted and the input emptied. -/
def ChangeOutcome.rejected (o : ChangeOutcome) : Prop :=
  o.alert.isSome = true ∧ o.target.value = "" ∧ o.target.files = []

/-- The `change` listener of the document. -/
def changeHandler (target : ChangeTarget) : ChangeOutcome :=
  if target.type = "file" ∧ includes target.accept "image/" = true then
    match target.files.head? with
    | some file =>
      let maxSize := 5 * 1024 * 1024
      if file.size > maxSize then
        ⟨some "File size must be less than 5MB.", clearValue target⟩
      else
        let allowedTypes := ["image/png", "image/jpeg", "image/jpg"]
        if !allowedTypes.contains file.type then
          ⟨some "Please upload PNG, JPG, or JPEG files only.", clearValue target⟩
        else
          ⟨none, target⟩
    | none => ⟨none, target⟩
  else
    ⟨none, target⟩

/-! ## Title character counter -/

/-- A positive finite binary64 number `mant * 2 ^ exp`. -/
structure Binary64 where
  mant : Nat
  exp : Int
  deriving DecidableEq, Repr

/-- Position of the leading binary digit: `floor (log2 n)` for `n > 0`.  The
first argument bounds the number of halvings; `n` itself is always enough. -/
def floorLog2Aux : Nat → Nat → Nat
  | 0, _ => 0
  | fuel + 1, n => if 2 ≤ n then floorLog2Aux fuel (n / 2) + 1 else 0

/-- The function `floor (log2 n)` for `n > 0`. -/
def floorLog2 (n : Nat) : Nat := floorLog2Aux n n

/-- Round the positive rational `num / den` to the nearest binary64 number,
ties to even (normal range only): the significand is scaled into
`[2^52, 2^53)` and the remainder decides the last bit. -/
def roundBinary64 (num den : Nat) : Binary64 :=
  let a := floorLog2 num
  let b := floorLog2 den
  -- floor (log2 (num / den))
  let l : Int := if num * 2 ^ b ≥ den * 2 ^ a then (a : Int) - b else (a : Int) - b - 1
  let k : Int := 52 - l
  let n := if 0 ≤ k then num * 2 ^ k.toNat else num
  let d := if 0 ≤ k then den else den * 2 ^ (-k).toNat
  let q := n / d
  let r := n % d
  let up := decide (2 * r > d) || (decide (2 * r = d) && decide (q % 2 = 1))
  ⟨if up then q + 1 else q, -k⟩

/-- The Number value of an integer below `2^53`: exact. -/
def Binary64.ofNat (n : Nat) : Binary64 := roundBinary64 n 1

/-- The Number value of the literal `0.9`. -/
def Binary64.point9 : Binary64 := roundBinary64 9 10

/-- Multiplication of Numbers: the exact product, rounded. -/
def Binary64.mul (x y : Binary64) : Binary64 :=
  let e := x.exp + y.exp
  if 0 ≤ e then roundBinary64 (x.mant * y.mant * 2 ^ e.toNat) 1
  else roundBinary64 (x.mant * y.mant) (2 ^ (-e).toNat)

/-- Comparison `n > x` of an integer Number with a Number. -/
def Binary64.ltNat (x : Binary64) (n : Nat) : Bool :=
  if 0 ≤ x.exp then decide (x.mant * 2 ^ x.exp.toNat < n)
  else decide (x.mant < n * 2 ^ (-x.exp).toNat)

/-- The hint element next to `#title`: its text and whether its class list
holds `text-warning`. -/
structure Hint where
  textContent : String
  textWarning : Bool
  deriving DecidableEq, Repr

/-- The `input` listener of `#title`; `value` is `this.value`, `formText` is
`this.nextElementSibling`. -/
def titleInputHandler (value : JSString) (formText : Hint) : Hint :=
  let maxLength := 200
  let currentLength := value.length
  let formText := { formText with
    textContent := toString currentLength ++ "/" ++ toString maxLength ++ " characters" }
  if ((Binary64.ofNat maxLength).mul Binary64.point9).ltNat currentLength then
    { formText with textWarning := true }
  else
    { formText with textWarning := false }

/-! ## Slide blocks: creation, renumbering, remove controls -/

/-- The element parsed from the markup `createSlideHtml(index)`; `ident` is the
identity of the new node.  The inputs are empty and the remove button has no
inline style. -/
def createSlideHtml (index : Nat) (ident : Nat) : Block :=
  { ident := ident
    header := "Slide " ++ toString (index + 1)
    controls :=
      [ ⟨Tag.input, "slide_title_" ++ toString index, []⟩,
        ⟨Tag.textarea, "slide_bullets_" ++ toString index, []⟩,
        ⟨Tag.input, "slide_image_url_" ++ toString index, []⟩,
        ⟨Tag.input, "slide_image_file_" ++ toString index, []⟩ ]
    dataSlideIndex := toString index
    removeDisplay := ""
    removing := false }

/-- The body of the `forEach` callback of `updateSlideNumbers` for one slide:
the four controls are looked up first, then renamed, then the data attribute
is set. -/
def renumberSlide (index : Nat) (slide : Block) : Block :=
  let titleInput := querySelector titleSel slide.controls
  let bulletsTextarea := querySelector bulletsSel slide.controls
  let imageUrlInput := querySelector imageUrlSel slide.controls
  let imageFileInput := querySelector imageFileSel slide.controls
  let cs := setName titleInput ("slide_title_" ++ toString index) slide.controls
  let cs := setName bulletsTextarea ("slide_bullets_" ++ toString index) cs
  let cs := setName imageUrlInput ("slide_image_url_" ++ toString index) cs
  let cs := setName imageFileInput ("slide_image_file_" ++ toString index) cs
  { slide with
    header := "Slide " ++ toString (index + 1)
    controls := cs
    dataSlideIndex := toString index }

/-- What `renumberSlide` makes of the control at position `j` of a slide whose
controls were `cs` (a later assignment overrides an earlier one). -/
def renamedControl (index : Nat) (cs : List Control) (j : Nat) (c : Control) : Control :=
  if querySelector imageFileSel cs = some j then
    c.rename ("slide_image_file_" ++ toString index)
  else if querySelector imageUrlSel cs = some j then
    c.rename ("slide_image_url_" ++ toString index)
  else if querySelector bulletsSel cs = some j then
    c.rename ("slide_bullets_" ++ toString index)
  else if querySelector titleSel cs = some j then
    c.rename ("slide_title_" ++ toString index)
  else c

/-- The `forEach` of `updateSlideNumbers`, from position `index` on. -/
def updateSlideNumbersFrom (index : Nat) : List Block → List Block
  | [] => []
  | slide :: rest => renumberSlide index slide :: updateSlideNumbersFrom (index + 1) rest

/-- The function `updateSlideNumbers` over the `.slide-block` elements. -/
def updateSlideNumbers (slides : List Block) : List Block :=
  updateSlideNumbersFrom 0 slides

/-- The function `updateRemoveButtons` over the `.slide-block` elements, each
holding its `.remove-slide-btn`. -/
def updateRemoveButtons (slides : List Block) : List Block :=
  slides.map (fun slide =>
    { slide with removeDisplay := if slides.length > 1 then "block" else "none" })

/-! ## The page and its operations -/

/-- State of the page between two event handlers. -/
structure Page where
  /-- The `.slide-block` elements, in document order. -/
  slides : List Block
  /-- The variable `slideCount`. -/
  slideCount : Nat
  /-- Callbacks registered by `setTimeout` and not yet run, oldest first; each
  holds the identity of the element it will remove. -/
  timers : List Nat
  /-- Identity the next created node receives. -/
  nextIdent : Nat
  deriving DecidableEq, Repr

/-- The page once the `DOMContentLoaded` listener has run on the blocks of the
served markup. -/
def domContentLoaded (slides : List Block) : Page :=
  { slides := updateRemoveButtons slides
    slideCount := 1
    timers := []
    nextIdent := (slides.map (·.ident)).foldr max 0 + 1 }

/-- The function `addSlide`. -/
def addSlide (p : Page) : Page :=
  let newSlide := createSlideHtml p.slideCount p.nextIdent
  let slides := p.slides ++ [newSlide]
  let slideCount := p.slideCount + 1
  let slides := updateSlideNumbers slides
  let slides := updateRemoveButtons slides
  { slides := slides, slideCount := slideCount, timers := p.timers,
    nextIdent := p.nextIdent + 1 }

/-- The function `removeSlide`, up to the call of `setTimeout`: the element is
marked and a callback is queued. -/
def removeSlide (slideElement : Nat) (p : Page) : Page :=
  { p with
    slides := p.slides.map (fun slide =>
      if slide.ident = slideElement then { slide with removing := true } else slide)
    timers := p.timers ++ [slideElement] }

/-- The callback `removeSlide` passes to `setTimeout`: `slideElement.remove()`,
then the two updates. -/
def removalCallback (slideElement : Nat) (slides : List Block) : List Block :=
  let slides := slides.filter (fun slide => slide.ident ≠ slideElement)
  let slides := updateSlideNumbers slides
  updateRemoveButtons slides

/-- The pending callback at position `k` of the queue runs. -/
def fireTimer (k : Nat) (p : Page) : Page :=
  match p.timers[k]? with
  | none => p
  | some slideElement =>
    { p with slides := removalCallback slideElement p.slides, timers := p.timers.eraseIdx k }

/-- What can happen to the page. -/
inductive Event where
  /-- The function `addSlide` is called (a click on `#addSlideBtn`). -/
  | add
  /-- The function `removeSlide` is called on an element (a click on its remove
  control). -/
  | remove (slideElement : Nat)
  /-- The pending callback at position `k` of the timer queue runs.  Browsers
  run callbacks of equal delay oldest first (`k = 0`); the model allows any
  pending callback to run next. -/
  | timeout (k : Nat)
  deriving DecidableEq, Repr

/-- One call: `none` when the event cannot happen (no such pending timer). -/
def step (p : Page) : Event → Option Page
  | Event.add => some (addSlide p)
  | Event.remove slideElement => some (removeSlide slideElement p)
  | Event.timeout k => if k < p.timers.length then some (fireTimer k p) else none

/-- A sequence of calls, in order. -/
def run (p : Page) : List Event → Option Page
  | [] => some p
  | e :: es => (step p e).bind (fun q => run q es)

/-- Is the remove control of the element attached and displayed. -/
def removeVisible (slideElement : Nat) (p : Page) : Bool :=
  p.slides.any (fun slide => decide (slide.ident = slideElement) && slide.removeDisplay != "none")

/-- One event caused through the user interface: a remove control can only be
clicked while it is attached and displayed. -/
def uiStep (p : Page) : Event → Option Page
  | Event.remove slideElement =>
    if removeVisible slideElement p then some (removeSlide slideElement p) else none
  | e => step p e

/-- A sequence of user-interface events, in order. -/
def uiRun (p : Page) : List Event → Option Page
  | [] => some p
  | e :: es => (uiStep p e).bind (fun q => uiRun q es)

/-- The field names of a block: what its four selectors find. -/
def fieldNames (slide : Block) : List (Option String) :=
  fieldSelectors.map
    (fun sel => (queryControl sel slide.controls).map (·.name))

/-- The field names carrying the suffix `index`. -/
def namesFor (index : Nat) : List (Option String) :=
  [ some ("slide_title_" ++ toString index),
    some ("slide_bullets_" ++ toString index),
    some ("slide_image_url_" ++ toString index),
    some ("slide_image_file_" ++ toString index) ]

/-- The block carries the four named inputs. -/
def HasNamedInputs (slide : Block) : Prop :=
  ∀ sel ∈ fieldSelectors, (querySelector sel slide.controls).isSome = true

instance (slide : Block) : Decidable (HasNamedInputs slide) := by
  unfold HasNamedInputs fieldSelectors; infer_instance

/-- The values the user entered in a block, control by control. -/
def enteredValues (slide : Block) : List JSString := slide.controls.map (·.value)

/-- The remove controls of the blocks are displayed exactly when there is more
than one block, and hidden otherwise. -/
def RemoveControlsMatch (slides : List Block) : Prop :=
  ∀ b ∈ slides,
    (b.removeDisplay = "block" ↔ slides.length > 1) ∧
    (b.removeDisplay = "none" ↔ slides.length ≤ 1) ∧
    (b.removeDisplay ≠ "none" ↔ slides.length > 1)

/-- No event of the sequence runs a removal callback of the element: the
events of the window between a `removeSlide` call and its callback. -/
def callbackFree (slideElement : Nat) : Page → List Event → Bool
  | _, [] => true
  | p, e :: es =>
    (match e with
      | Event.timeout k => p.timers[k]? != some slideElement
      | _ => true) &&
    (match step p e with
      | some q => callbackFree slideElement q es
      | none => true)

/-- A block as the user sees it after the page loaded: the markup of
`createSlideHtml` with a title typed in. -/
def typedSlide (index ident : Nat) (title : JSString) : Block :=
  { createSlideHtml index ident with
    controls :=
      [ ⟨Tag.input, "slide_title_" ++ toString index, title⟩,
        ⟨Tag.textarea, "slide_bullets_" ++ toString index, []⟩,
        ⟨Tag.input, "slide_image_url_" ++ toString index, []⟩,
        ⟨Tag.input, "slide_image_file_" ++ toString index, []⟩ ] }

/-! ## Facts about strings -/

theorem trim_eq_nil_iff (s : JSString) :
    trim s = [] ↔ ∀ c ∈ s, isTrimmable c = true := by
  unfold trim
  rw [List.reverse_eq_nil_iff, List.dropWhile_eq_nil_iff]
  constructor
  · intro h
    have hd : s.dropWhile isTrimmable = [] := by
      by_contra hne
      have h1 := List.head_dropWhile_not isTrimmable s hne
      have h2 := h _ (List.mem_reverse.mpr (List.head_mem hne))
      simp [h2] at h1
    exact List.dropWhile_eq_nil_iff.mp hd
  · intro h c hc
    have hd : s.dropWhile isTrimmable = [] := List.dropWhile_eq_nil_iff.mpr h
    simp [hd] at hc

theorem truthy_trim_eq_false_iff (s : JSString) :
    truthy (trim s) = false ↔ trim s = [] := by
  unfold truthy
  cases trim s <;> simp

theorem startsWith_append (pre rest : String) : startsWith pre (pre ++ rest) = true := by
  unfold startsWith
  rw [List.isPrefixOf_iff_prefix, String.data_append]
  exact List.prefix_append _ _

/-- Two prefixes of one string: the shorter is a prefix of the longer. -/
theorem startsWith_comparable (p q s : String)
    (hp : startsWith p s = true) (hq : startsWith q s = true) :
    startsWith p q = true ∨ startsWith q p = true := by
  unfold startsWith at *
  simp only [List.isPrefixOf_iff_prefix] at *
  exact List.prefix_or_prefix_of_prefix hp hq

/-! ## Submit validation -/

theorem hasValidSlide_foldl (slides : List Block) (acc : Bool) :
    slides.foldl (fun acc slide =>
      match queryControl titleSel slide.controls with
      | some titleInput => if truthy (trim titleInput.value) then true else acc
      | none => acc) acc = (acc || slides.any hasTitle) := by
  induction slides generalizing acc with
  | nil => simp
  | cons b bs ih =>
    rw [List.foldl_cons, ih, List.any_cons]
    unfold hasTitle
    cases queryControl titleSel b.controls with
    | none => simp
    | some t => cases truthy (trim t.value) <;> cases acc <;> simp

theorem submitHandler_prevented (slides : List Block) :
    (submitHandler slides).defaultPrevented = (slides.isEmpty || !slides.any hasTitle) := by
  unfold submitHandler
  cases slides with
  | nil => simp
  | cons b bs =>
    simp only [hasValidSlide_foldl, List.length_cons, Nat.add_one_ne_zero, if_false,
      Bool.false_or, List.isEmpty_cons]
    cases (b :: bs).any hasTitle <;> simp

theorem hasTitle_eq_false_iff (slide : Block) :
    hasTitle slide = false ↔
      ∀ c, queryControl titleSel slide.controls = some c → trim c.value = [] := by
  unfold hasTitle
  cases queryControl titleSel slide.controls with
  | none => simp
  | some t => simp [truthy_trim_eq_false_iff]

/-- C2: the submit listener calls `preventDefault` exactly when there is no
slide block or every block's title value (where the block has a title input)
is empty after trimming; whenever some block has a title whose trimmed value
is not empty, `preventDefault` is not called and nothing is alerted. -/
theorem submitHandler_spec (slides : List Block) :
    ((submitHandler slides).defaultPrevented = true ↔
      slides = [] ∨
      ∀ b ∈ slides, ∀ c, queryControl titleSel b.controls = some c → trim c.value = []) ∧
    ((∃ b ∈ slides, ∃ c, queryControl titleSel b.controls = some c ∧ trim c.value ≠ []) →
      submitHandler slides = ⟨false, none⟩) := by
  have key : (submitHandler slides).defaultPrevented = true ↔
      slides = [] ∨
      ∀ b ∈ slides, ∀ c, queryControl titleSel b.controls = some c → trim c.value = [] := by
    rw [submitHandler_prevented]
    simp only [Bool.or_eq_true, List.isEmpty_iff, Bool.not_eq_true', List.any_eq_false,
      Bool.not_eq_true, hasTitle_eq_false_iff]
  refine ⟨key, ?_⟩
  rintro ⟨b, hb, c, hc, hne⟩
  have hnot : (submitHandler slides).defaultPrevented ≠ true := by
    intro hp
    rcases key.mp hp with h | h
    · subst h; simp at hb
    · exact hne (h b hb c hc)
  revert hnot
  unfold submitHandler
  dsimp only
  split_ifs <;> simp

/-! ## File selection validation -/

/-- C3: on a `change` event of a file input whose `accept` contains `image/`
and whose first file has size `s` and type `t`, the selection is refused
(alert, value cleared) exactly when `s > 5242880` or `t` is none of
`image/png`, `image/jpeg`, `image/jpg`, and is otherwise left as it was; so
5242881 bytes are refused whatever the type, one byte of `image/gif` is
refused, and 5242880 bytes of `image/png` are accepted. -/
theorem changeHandler_spec (target : ChangeTarget) (file : FileEntry) (rest : List FileEntry)
    (hType : target.type = "file") (hAccept : includes target.accept "image/" = true)
    (hFiles : target.files = file :: rest) :
    ((changeHandler target).rejected ↔
      file.size > 5242880 ∨ file.type ∉ ["image/png", "image/jpeg", "image/jpg"]) ∧
    (¬ (file.size > 5242880 ∨ file.type ∉ ["image/png", "image/jpeg", "image/jpg"]) →
      changeHandler target = ⟨none, target⟩) ∧
    (file.size = 5242881 → (changeHandler target).rejected) ∧
    (file.size = 1 → file.type = "image/gif" → (changeHandler target).rejected) ∧
    (file.size = 5242880 → file.type = "image/png" → changeHandler target = ⟨none, target⟩) := by
  have hrej : file.size > 5242880 ∨ file.type ∉ ["image/png", "image/jpeg", "image/jpg"] →
      (changeHandler target).rejected := by
    intro h
    unfold changeHandler ChangeOutcome.rejected
    rw [if_pos ⟨hType, hAccept⟩, hFiles]
    dsimp only [List.head?_cons]
    by_cases hs : file.size > 5 * 1024 * 1024
    · rw [if_pos hs]; simp [clearValue]
    · rw [if_neg hs]
      have ht : file.type ∉ ["image/png", "image/jpeg", "image/jpg"] := by
        rcases h with h | h
        · exact absurd h hs
        · exact h
      have hc : (!(["image/png", "image/jpeg", "image/jpg"].contains file.type)) = true := by
        simpa using ht
      rw [if_pos hc]; simp [clearValue]
  have hacc : ¬ (file.size > 5242880 ∨ file.type ∉ ["image/png", "image/jpeg", "image/jpg"]) →
      changeHandler target = ⟨none, target⟩ := by
    intro h
    rw [not_or, not_not] at h
    unfold changeHandler
    rw [if_pos ⟨hType, hAccept⟩, hFiles]
    dsimp only [List.head?_cons]
    rw [if_neg h.1]
    have hc : ¬ ((!(["image/png", "image/jpeg", "image/jpg"].contains file.type)) = true) := by
      have h2 := h.2
      simp only [Bool.not_eq_true', Bool.not_eq_false, List.contains_iff_exists_mem_beq,
        beq_iff_eq, exists_eq_right']
      simpa using h2
    rw [if_neg hc]
  refine ⟨⟨?_, hrej⟩, hacc, ?_, ?_, ?_⟩
  · intro h
    by_contra hn
    rw [hacc hn] at h
    simp [ChangeOutcome.rejected] at h
  · intro h; exact hrej (Or.inl (by omega))
  · intro _ h; exact hrej (Or.inr (by rw [h]; decide))
  · intro h1 h2; exact hacc (by rw [h1, h2]; decide)

theorem changeHandler_spec_witness :
    (changeHandler ⟨"file", "image/png,image/jpeg,image/jpg", [⟨5242881, "image/png"⟩],
        "C:/fakepath/a.png"⟩).rejected ∧
    changeHandler ⟨"file", "image/png,image/jpeg,image/jpg", [⟨5242880, "image/png"⟩],
        "C:/fakepath/a.png"⟩ =
      ⟨none, ⟨"file", "image/png,image/jpeg,image/jpg", [⟨5242880, "image/png"⟩],
        "C:/fakepath/a.png"⟩⟩ :=
  ⟨(changeHandler_spec ⟨"file", "image/png,image/jpeg,image/jpg", [⟨5242881, "image/png"⟩],
      "C:/fakepath/a.png"⟩ ⟨5242881, "image/png"⟩ [] rfl (by decide) rfl).2.2.1 rfl,
   (changeHandler_spec ⟨"file", "image/png,image/jpeg,image/jpg", [⟨5242880, "image/png"⟩],
      "C:/fakepath/a.png"⟩ ⟨5242880, "image/png"⟩ [] rfl (by decide) rfl).2.2.2.2 rfl rfl⟩

/-! ## Title character counter -/

set_option maxRecDepth 100000 in
/-- The Number `200 * 0.9` is exactly 180. -/
theorem threshold_eq :
    (Binary64.ofNat 200).mul Binary64.point9 = ⟨180 * 2 ^ 45, -45⟩ := by decide

theorem threshold_ltNat (n : Nat) :
    ((Binary64.ofNat 200).mul Binary64.point9).ltNat n = decide (180 < n) := by
  rw [threshold_eq]
  unfold Binary64.ltNat
  have h : ¬ ((0 : Int) ≤ -45) := by decide
  simp only [h, if_false]
  have e : (-(-45 : Int)).toNat = 45 := by decide
  rw [e]
  congr 1
  apply propext
  constructor <;> intro h <;> omega

/-- C8: for a title value of `n` code units the `input` listener writes
`n/200 characters` into the hint and leaves the class `text-warning` set
exactly when `n > 180`; 201 units give `201/200 characters` with the warning,
180 units give `180/200 characters` without it, 181 units give the warning;
the threshold is the Number `200 * 0.9`, which is exactly 180. -/
theorem titleInputHandler_spec (value : JSString) (formText : Hint) :
    (titleInputHandler value formText).textContent =
      toString value.length ++ "/200 characters" ∧
    ((titleInputHandler value formText).textWarning = true ↔ value.length > 180) ∧
    (∀ c, titleInputHandler (List.replicate 201 c) formText = ⟨"201/200 characters", true⟩) ∧
    (∀ c, titleInputHandler (List.replicate 180 c) formText = ⟨"180/200 characters", false⟩) ∧
    (∀ c, (titleInputHandler (List.replicate 181 c) formText).textWarning = true) ∧
    (titleInputHandler value formText).textWarning =
      ((Binary64.ofNat 200).mul Binary64.point9).ltNat value.length ∧
    (Binary64.ofNat 200).mul Binary64.point9 = ⟨180 * 2 ^ 45, -45⟩ := by
  have htext : ∀ v : JSString, (titleInputHandler v formText).textContent =
      toString v.length ++ "/200 characters" := by
    intro v
    unfold titleInputHandler
    have e : toString v.length ++ "/" ++ toString 200 ++ " characters" =
        toString v.length ++ "/200 characters" := by
      rw [String.append_assoc, String.append_assoc]
      congr 1
    dsimp only
    split_ifs <;> exact e
  have hwarn : ∀ v : JSString, (titleInputHandler v formText).textWarning =
      decide (180 < v.length) := by
    intro v
    unfold titleInputHandler
    dsimp only
    rw [threshold_ltNat]
    by_cases h : 180 < v.length <;> simp [h]
  have hboth : ∀ v : JSString, titleInputHandler v formText =
      ⟨toString v.length ++ "/200 characters", decide (180 < v.length)⟩ := by
    intro v
    rw [← htext v, ← hwarn v]
  refine ⟨htext value, ?_, ?_, ?_, ?_, ?_, threshold_eq⟩
  · rw [hwarn]; simp
  · intro c; rw [hboth]; simp only [List.length_replicate]; decide
  · intro c; rw [hboth]; simp only [List.length_replicate]; decide
  · intro c; rw [hwarn]; simp only [List.length_replicate]; decide
  · rw [hwarn, threshold_ltNat]

/-! ## Selectors and renaming -/

theorem querySelector_some (sel : Selector) :
    ∀ (cs : List Control) (k : Nat), querySelector sel cs = some k →
      ∃ c, cs[k]? = some c ∧ sel.test c = true
  | [], _, h => by simp [querySelector] at h
  | c :: cs, k, h => by
    unfold querySelector at h
    by_cases ht : sel.test c = true
    · rw [if_pos ht] at h
      cases h
      exact ⟨c, by simp, ht⟩
    · rw [if_neg ht] at h
      cases hq : querySelector sel cs with
      | none => rw [hq] at h; simp at h
      | some j =>
        rw [hq] at h
        simp only [Option.map_some', Option.some.injEq] at h
        subst h
        obtain ⟨d, hd, hdt⟩ := querySelector_some sel cs j hq
        exact ⟨d, by simpa using hd, hdt⟩

theorem querySelector_congr (sel : Selector) :
    ∀ (cs ds : List Control), cs.map sel.test = ds.map sel.test →
      querySelector sel cs = querySelector sel ds
  | [], [], _ => rfl
  | [], _ :: _, h => by simp at h
  | _ :: _, [], h => by simp at h
  | c :: cs, d :: ds, h => by
    simp only [List.map_cons, List.cons.injEq] at h
    simp only [querySelector, h.1, querySelector_congr sel cs ds h.2]

theorem test_exclusive (c : Control) :
    ∀ s ∈ fieldSelectors, ∀ t ∈ fieldSelectors,
      s.test c = true → t.test c = true → s = t := by
  intro s hs t ht h1 h2
  unfold Selector.test at h1 h2
  simp only [Bool.and_eq_true, decide_eq_true_eq] at h1 h2
  have htag : s.tag = t.tag := h1.1.symm.trans h2.1
  have hcmp := startsWith_comparable s.pre t.pre c.name h1.2 h2.2
  simp only [fieldSelectors, List.mem_cons, List.mem_singleton, List.not_mem_nil,
    or_false] at hs ht
  rcases hs with rfl | rfl | rfl | rfl <;> rcases ht with rfl | rfl | rfl | rfl <;>
    first
      | rfl
      | exact absurd htag (by decide)
      | exact absurd hcmp (by decide)

theorem test_rename_self (c : Control) (s : Selector) (rest : String)
    (h : s.test c = true) : s.test (c.rename (s.pre ++ rest)) = true := by
  unfold Selector.test at *
  simp only [Bool.and_eq_true, decide_eq_true_eq] at h ⊢
  exact ⟨h.1, startsWith_append _ _⟩

theorem test_rename (c : Control) (rest : String) :
    ∀ s ∈ fieldSelectors, s.test c = true →
      ∀ t ∈ fieldSelectors, t.test (c.rename (s.pre ++ rest)) = t.test c := by
  intro s hs h t ht
  have hself := test_rename_self c s rest h
  by_cases hst : s = t
  · subst hst; rw [hself, h]
  · have h1 : t.test c = false := by
      cases hc : t.test c with
      | false => rfl
      | true => exact absurd (test_exclusive c s hs t ht h hc) hst
    have h2 : t.test (c.rename (s.pre ++ rest)) = false := by
      cases hc : t.test (c.rename (s.pre ++ rest)) with
      | false => rfl
      | true => exact absurd (test_exclusive _ s hs t ht hself hc) hst
    rw [h1, h2]

theorem getElem?_setName (el : Option Nat) (newName : String) (cs : List Control) (j : Nat) :
    (setName el newName cs)[j]? =
      cs[j]?.map (fun c => if el = some j then c.rename newName else c) := by
  cases el with
  | none => simp [setName]
  | some k =>
    simp only [setName, List.getElem?_modify, Option.some.injEq]
    cases cs[j]? with
    | none => simp
    | some c => by_cases hkj : k = j <;> simp [hkj]

/-! ## Renumbering one slide -/

theorem renumberSlide_getElem? (index : Nat) (slide : Block) (j : Nat) :
    (renumberSlide index slide).controls[j]? =
      slide.controls[j]?.map (renamedControl index slide.controls j) := by
  unfold renumberSlide
  simp only [getElem?_setName, Option.map_map]
  cases slide.controls[j]? with
  | none => rfl
  | some c =>
    simp only [Option.map_some', Function.comp_apply, renamedControl]
    split_ifs <;> rfl

theorem querySelector_distinct (cs : List Control) (k : Nat) :
    ∀ s ∈ fieldSelectors, ∀ t ∈ fieldSelectors,
      querySelector s cs = some k → querySelector t cs = some k → s = t := by
  intro s hs t ht h1 h2
  obtain ⟨c, hc, hsc⟩ := querySelector_some s cs k h1
  obtain ⟨d, hd, htd⟩ := querySelector_some t cs k h2
  rw [hc] at hd
  cases hd
  exact test_exclusive c s hs t ht hsc htd

theorem renamedControl_of_query (index : Nat) (cs : List Control) (j : Nat) (c : Control) :
    ∀ s ∈ fieldSelectors, querySelector s cs = some j →
      renamedControl index cs j c = c.rename (s.pre ++ toString index) := by
  intro s hs hq
  have hne : ∀ t ∈ fieldSelectors, t ≠ s → querySelector t cs ≠ some j :=
    fun t ht hts h => hts (querySelector_distinct cs j t ht s hs h hq)
  have h1 := hne titleSel (by simp [fieldSelectors])
  have h2 := hne bulletsSel (by simp [fieldSelectors])
  have h3 := hne imageUrlSel (by simp [fieldSelectors])
  have h4 := hne imageFileSel (by simp [fieldSelectors])
  simp only [fieldSelectors, List.mem_cons, List.mem_singleton, List.not_mem_nil,
    or_false] at hs
  unfold renamedControl
  rcases hs with rfl | rfl | rfl | rfl
  · rw [if_neg (h4 (by decide)), if_neg (h3 (by decide)), if_neg (h2 (by decide)), if_pos hq]
    rfl
  · rw [if_neg (h4 (by decide)), if_neg (h3 (by decide)), if_pos hq]
    rfl
  · rw [if_neg (h4 (by decide)), if_pos hq]
    rfl
  · rw [if_pos hq]
    rfl

theorem renamedControl_of_no_query (index : Nat) (cs : List Control) (j : Nat) (c : Control)
    (h : ∀ s ∈ fieldSelectors, querySelector s cs ≠ some j) :
    renamedControl index cs j c = c := by
  unfold renamedControl
  rw [if_neg (h imageFileSel (by simp [fieldSelectors])),
    if_neg (h imageUrlSel (by simp [fieldSelectors])),
    if_neg (h bulletsSel (by simp [fieldSelectors])),
    if_neg (h titleSel (by simp [fieldSelectors]))]

/-- The control at position `j` is renamed within its own selector, or kept. -/
theorem renamedControl_cases (index : Nat) (cs : List Control) (j : Nat) (c : Control)
    (hc : cs[j]? = some c) :
    (∃ s ∈ fieldSelectors, s.test c = true ∧ querySelector s cs = some j ∧
      renamedControl index cs j c = c.rename (s.pre ++ toString index)) ∨
    ((∀ s ∈ fieldSelectors, querySelector s cs ≠ some j) ∧ renamedControl index cs j c = c) := by
  by_cases h : ∃ s ∈ fieldSelectors, querySelector s cs = some j
  · obtain ⟨s, hs, hq⟩ := h
    obtain ⟨d, hd, hdt⟩ := querySelector_some s cs j hq
    rw [hc] at hd
    cases hd
    exact Or.inl ⟨s, hs, hdt, hq, renamedControl_of_query index cs j c s hs hq⟩
  · have h2 : ∀ s ∈ fieldSelectors, querySelector s cs ≠ some j :=
      fun s hs hq => h ⟨s, hs, hq⟩
    exact Or.inr ⟨h2, renamedControl_of_no_query index cs j c h2⟩

theorem renumberSlide_tests (index : Nat) (slide : Block) :
    ∀ t ∈ fieldSelectors,
      (renumberSlide index slide).controls.map t.test = slide.controls.map t.test := by
  intro t ht
  apply List.ext_getElem?
  intro j
  rw [List.getElem?_map, List.getElem?_map, renumberSlide_getElem?]
  cases hc : slide.controls[j]? with
  | none => rfl
  | some c =>
    simp only [Option.map_some', Option.some.injEq]
    rcases renamedControl_cases index slide.controls j c hc with ⟨s, hs, hst, _, he⟩ | ⟨_, he⟩
    · rw [he]; exact test_rename c _ s hs hst t ht
    · rw [he]

theorem renumberSlide_query (index : Nat) (slide : Block) :
    ∀ t ∈ fieldSelectors,
      querySelector t (renumberSlide index slide).controls = querySelector t slide.controls :=
  fun t ht => querySelector_congr t _ _ (renumberSlide_tests index slide t ht)

theorem renumberSlide_name (index : Nat) (slide : Block) :
    ∀ s ∈ fieldSelectors, ∀ k, querySelector s slide.controls = some k →
      (queryControl s (renumberSlide index slide).controls).map (·.name) =
        some (s.pre ++ toString index) := by
  intro s hs k hq
  unfold queryControl
  rw [renumberSlide_query index slide s hs, hq]
  obtain ⟨c, hc, _⟩ := querySelector_some s slide.controls k hq
  simp only [Option.some_bind, renumberSlide_getElem?, hc, Option.map_some',
    renamedControl_of_query index slide.controls k c s hs hq]
  rfl

theorem renumberSlide_values (index : Nat) (slide : Block) :
    enteredValues (renumberSlide index slide) = enteredValues slide := by
  unfold enteredValues
  apply List.ext_getElem?
  intro j
  rw [List.getElem?_map, List.getElem?_map, renumberSlide_getElem?]
  cases hc : slide.controls[j]? with
  | none => rfl
  | some c =>
    simp only [Option.map_some', Option.some.injEq]
    rcases renamedControl_cases index slide.controls j c hc with ⟨s, _, _, _, he⟩ | ⟨_, he⟩
    · rw [he]; rfl
    · rw [he]

/-- Renumbering a slide that was just renumbered gives the same slide as
renumbering it once. -/
theorem renumberSlide_renumberSlide (index m : Nat) (slide : Block) :
    renumberSlide index (renumberSlide m slide) = renumberSlide index slide := by
  have hctl : (renumberSlide index (renumberSlide m slide)).controls =
      (renumberSlide index slide).controls := by
    apply List.ext_getElem?
    intro j
    rw [renumberSlide_getElem?, renumberSlide_getElem?, renumberSlide_getElem?]
    cases hc : slide.controls[j]? with
    | none => rfl
    | some c =>
      simp only [Option.map_some', Option.some.injEq]
      have hq : ∀ t ∈ fieldSelectors,
          querySelector t (renumberSlide m slide).controls = querySelector t slide.controls :=
        renumberSlide_query m slide
      rcases renamedControl_cases index slide.controls j c hc with ⟨s, hs, _, hsq, he⟩ | ⟨hno, he⟩
      · rw [he, renamedControl_of_query index _ j _ s hs (by rw [hq s hs]; exact hsq),
          renamedControl_of_query m slide.controls j c s hs hsq]
        rfl
      · rw [he, renamedControl_of_no_query m slide.controls j c hno,
          renamedControl_of_no_query index _ j c (fun s hs => by rw [hq s hs]; exact hno s hs)]
  have hrest : ∀ a b : Block, a.ident = b.ident → a.header = b.header →
      a.controls = b.controls → a.dataSlideIndex = b.dataSlideIndex →
      a.removeDisplay = b.removeDisplay → a.removing = b.removing → a = b := by
    intro a b h1 h2 h3 h4 h5 h6
    cases a; cases b; simp_all
  exact hrest _ _ rfl rfl hctl rfl rfl rfl

theorem renumberSlide_name_of_query (index : Nat) (slide : Block) :
    ∀ s ∈ fieldSelectors, ∀ c, queryControl s (renumberSlide index slide).controls = some c →
      c.name = s.pre ++ toString index := by
  intro s hs c hc
  have hq : ∃ k, querySelector s slide.controls = some k := by
    unfold queryControl at hc
    rw [renumberSlide_query index slide s hs] at hc
    cases h : querySelector s slide.controls with
    | none => rw [h] at hc; simp at hc
    | some k => exact ⟨k, rfl⟩
  obtain ⟨k, hk⟩ := hq
  have h := renumberSlide_name index slide s hs k hk
  rw [hc] at h
  simpa using h

theorem renumberSlide_fieldNames (index : Nat) (slide : Block) (h : HasNamedInputs slide) :
    fieldNames (renumberSlide index slide) = namesFor index := by
  have key : ∀ s ∈ fieldSelectors,
      (queryControl s (renumberSlide index slide).controls).map (·.name) =
        some (s.pre ++ toString index) := by
    intro s hs
    have hs2 := h s hs
    cases hq : querySelector s slide.controls with
    | none => rw [hq] at hs2; simp at hs2
    | some k => exact renumberSlide_name index slide s hs k hq
  unfold fieldNames namesFor
  simp only [fieldSelectors, List.map_cons, List.map_nil]
  rw [key titleSel (by simp [fieldSelectors]), key bulletsSel (by simp [fieldSelectors]),
    key imageUrlSel (by simp [fieldSelectors]), key imageFileSel (by simp [fieldSelectors])]
  rfl

theorem renumberSlide_hasNamedInputs (index : Nat) (slide : Block) (h : HasNamedInputs slide) :
    HasNamedInputs (renumberSlide index slide) := by
  intro s hs
  rw [renumberSlide_query index slide s hs]
  exact h s hs

/-! ## Renumbering all slides -/

theorem updateSlideNumbersFrom_getElem? (slides : List Block) :
    ∀ (index k : Nat), (updateSlideNumbersFrom index slides)[k]? =
      slides[k]?.map (renumberSlide (index + k)) := by
  induction slides with
  | nil => intro index k; simp [updateSlideNumbersFrom]
  | cons b bs ih =>
    intro index k
    cases k with
    | zero => simp [updateSlideNumbersFrom]
    | succ k =>
      simp only [updateSlideNumbersFrom, List.getElem?_cons_succ, ih]
      rw [show index + 1 + k = index + (k + 1) by omega]

theorem updateSlideNumbers_getElem? (slides : List Block) (k : Nat) :
    (updateSlideNumbers slides)[k]? = slides[k]?.map (renumberSlide k) := by
  unfold updateSlideNumbers
  rw [updateSlideNumbersFrom_getElem?, Nat.zero_add]

theorem updateSlideNumbersFrom_length (slides : List Block) :
    ∀ index, (updateSlideNumbersFrom index slides).length = slides.length := by
  induction slides with
  | nil => intro index; rfl
  | cons b bs ih => intro index; simp [updateSlideNumbersFrom, ih]

theorem updateSlideNumbers_length (slides : List Block) :
    (updateSlideNumbers slides).length = slides.length :=
  updateSlideNumbersFrom_length slides 0

theorem updateSlideNumbersFrom_map (f : Block → α)
    (hf : ∀ index slide, f (renumberSlide index slide) = f slide) (slides : List Block) :
    ∀ index, (updateSlideNumbersFrom index slides).map f = slides.map f := by
  induction slides with
  | nil => intro index; rfl
  | cons b bs ih => intro index; simp [updateSlideNumbersFrom, ih, hf]

theorem updateSlideNumbersFrom_idempotent (slides : List Block) :
    ∀ index, updateSlideNumbersFrom index (updateSlideNumbersFrom index slides) =
      updateSlideNumbersFrom index slides := by
  induction slides with
  | nil => intro index; rfl
  | cons b bs ih =>
    intro index
    simp only [updateSlideNumbersFrom, renumberSlide_renumberSlide, ih]

theorem updateRemoveButtons_length (slides : List Block) :
    (updateRemoveButtons slides).length = slides.length := by
  simp [updateRemoveButtons]

theorem updateRemoveButtons_getElem? (slides : List Block) (k : Nat) :
    (updateRemoveButtons slides)[k]? = slides[k]?.map (fun slide =>
      { slide with removeDisplay := if slides.length > 1 then "block" else "none" }) := by
  simp [updateRemoveButtons]

/-- C5: on slide blocks that each hold the four named inputs,
`updateSlideNumbers` keeps the number of blocks and leaves the block at
position `i` (from 0) with header `Slide ` followed by `i + 1`, with the field
names `slide_title_i`, `slide_bullets_i`, `slide_image_url_i`,
`slide_image_file_i` and with `data-slide-index` `i`, whatever the suffixes
were before. -/
theorem updateSlideNumbers_spec (slides : List Block)
    (hInputs : ∀ b ∈ slides, HasNamedInputs b) (i : Nat) (hi : i < slides.length) :
    (updateSlideNumbers slides).length = slides.length ∧
    ∃ b, (updateSlideNumbers slides)[i]? = some b ∧
      b.header = "Slide " ++ toString (i + 1) ∧
      fieldNames b =
        [ some ("slide_title_" ++ toString i), some ("slide_bullets_" ++ toString i),
          some ("slide_image_url_" ++ toString i), some ("slide_image_file_" ++ toString i) ] ∧
      b.dataSlideIndex = toString i := by
  refine ⟨updateSlideNumbers_length slides, ?_⟩
  have hget : slides[i]? = some (slides[i]) := List.getElem?_eq_getElem hi
  refine ⟨renumberSlide i slides[i], ?_, rfl, ?_, rfl⟩
  · rw [updateSlideNumbers_getElem?, hget]; rfl
  · exact renumberSlide_fieldNames i _ (hInputs _ (List.getElem_mem hi))

theorem updateSlideNumbers_spec_witness :
    ∃ b, (updateSlideNumbers
        [createSlideHtml 7 0, createSlideHtml 3 1, createSlideHtml 3 2])[1]? = some b ∧
      b.header = "Slide " ++ toString (1 + 1) ∧
      fieldNames b =
        [ some ("slide_title_" ++ toString 1), some ("slide_bullets_" ++ toString 1),
          some ("slide_image_url_" ++ toString 1), some ("slide_image_file_" ++ toString 1) ] ∧
      b.dataSlideIndex = toString 1 :=
  (updateSlideNumbers_spec [createSlideHtml 7 0, createSlideHtml 3 1, createSlideHtml 3 2]
    (by decide) 1 (by decide)).2

/-- C6: `updateSlideNumbers` is idempotent: applied twice in a row to any
list of slide blocks it gives the same blocks (field names, headers,
`data-slide-index` and everything else) as applied once. -/
theorem updateSlideNumbers_idempotent (slides : List Block) :
    updateSlideNumbers (updateSlideNumbers slides) = updateSlideNumbers slides ∧
    (updateSlideNumbers (updateSlideNumbers slides)).map fieldNames =
      (updateSlideNumbers slides).map fieldNames ∧
    (updateSlideNumbers (updateSlideNumbers slides)).map (fun b => (b.header, b.dataSlideIndex)) =
      (updateSlideNumbers slides).map (fun b => (b.header, b.dataSlideIndex)) := by
  have h := updateSlideNumbersFrom_idempotent slides 0
  unfold updateSlideNumbers
  exact ⟨h, by rw [h], by rw [h]⟩

/-! ## Remove controls -/

theorem updateRemoveButtons_display (slides : List Block) :
    ∀ b ∈ updateRemoveButtons slides,
      b.removeDisplay = if slides.length > 1 then "block" else "none" := by
  intro b hb
  unfold updateRemoveButtons at hb
  obtain ⟨a, _, rfl⟩ := List.mem_map.mp hb
  rfl

theorem updateRemoveButtons_match (slides : List Block) :
    RemoveControlsMatch (updateRemoveButtons slides) := by
  intro b hb
  rw [updateRemoveButtons_length, updateRemoveButtons_display slides b hb]
  by_cases h : slides.length > 1
  · rw [if_pos h]
    exact ⟨by simp [h], by simp; omega, by simp [h]⟩
  · rw [if_neg h]
    refine ⟨by simp [h], by simp; omega, by simp [h]⟩

theorem addSlide_slides (p : Page) :
    (addSlide p).slides = updateRemoveButtons
      (updateSlideNumbers (p.slides ++ [createSlideHtml p.slideCount p.nextIdent])) := rfl

theorem fireTimer_slides (k : Nat) (p : Page) (slideElement : Nat)
    (h : p.timers[k]? = some slideElement) :
    (fireTimer k p).slides = updateRemoveButtons
      (updateSlideNumbers (p.slides.filter (fun slide => slide.ident ≠ slideElement))) := by
  unfold fireTimer
  rw [h]
  rfl

/-- C7: after `updateRemoveButtons` on `n` slide blocks every remove control
has display `block` exactly when `n > 1` and display `none` otherwise (so it
is hidden when `n = 1`); hence after every `addSlide` and after every removal
callback the remove controls are displayed exactly when more than one block
is on the page. -/
theorem updateRemoveButtons_spec :
    (∀ slides : List Block,
      (updateRemoveButtons slides).length = slides.length ∧
      ∀ b ∈ updateRemoveButtons slides,
        (b.removeDisplay = "block" ↔ slides.length > 1) ∧
        (b.removeDisplay = "none" ↔ slides.length ≤ 1) ∧
        (slides.length = 1 → b.removeDisplay = "none")) ∧
    (∀ p : Page, RemoveControlsMatch (addSlide p).slides) ∧
    (∀ (p : Page) (k : Nat), k < p.timers.length → RemoveControlsMatch (fireTimer k p).slides) := by
  refine ⟨?_, ?_, ?_⟩
  · intro slides
    refine ⟨updateRemoveButtons_length slides, ?_⟩
    intro b hb
    have h := updateRemoveButtons_match slides b hb
    rw [updateRemoveButtons_length] at h
    exact ⟨h.1, h.2.1, fun h1 => h.2.1.mpr (by omega)⟩
  · intro p
    rw [addSlide_slides]
    exact updateRemoveButtons_match _
  · intro p k hk
    rw [fireTimer_slides k p p.timers[k] (List.getElem?_eq_getElem hk)]
    exact updateRemoveButtons_match _

/-! ## Adding a slide -/

theorem startsWith_url_title (r : String) :
    startsWith "slide_image_url_" ("slide_title_" ++ r) = false := by rfl

theorem startsWith_file_title (r : String) :
    startsWith "slide_image_file_" ("slide_title_" ++ r) = false := by rfl

theorem startsWith_file_url (r : String) :
    startsWith "slide_image_file_" ("slide_image_url_" ++ r) = false := by rfl

theorem createSlideHtml_query (index ident : Nat) :
    querySelector titleSel (createSlideHtml index ident).controls = some 0 ∧
    querySelector bulletsSel (createSlideHtml index ident).controls = some 1 ∧
    querySelector imageUrlSel (createSlideHtml index ident).controls = some 2 ∧
    querySelector imageFileSel (createSlideHtml index ident).controls = some 3 := by
  have e1 := startsWith_append "slide_title_" (toString index)
  have e2 := startsWith_append "slide_bullets_" (toString index)
  have e3 := startsWith_append "slide_image_url_" (toString index)
  have e4 := startsWith_append "slide_image_file_" (toString index)
  simp [querySelector, Selector.test, createSlideHtml, titleSel, bulletsSel, imageUrlSel,
    imageFileSel, e1, e2, e3, e4, startsWith_url_title, startsWith_file_title,
    startsWith_file_url]

theorem createSlideHtml_hasNamedInputs (index ident : Nat) :
    HasNamedInputs (createSlideHtml index ident) := by
  obtain ⟨h1, h2, h3, h4⟩ := createSlideHtml_query index ident
  intro s hs
  simp only [fieldSelectors, List.mem_cons, List.mem_singleton, List.not_mem_nil,
    or_false] at hs
  rcases hs with rfl | rfl | rfl | rfl
  · rw [h1]; rfl
  · rw [h2]; rfl
  · rw [h3]; rfl
  · rw [h4]; rfl

theorem queryControl_renumberSlide_value (index : Nat) (slide : Block) :
    ∀ s ∈ fieldSelectors,
      (queryControl s (renumberSlide index slide).controls).map (·.value) =
        (queryControl s slide.controls).map (·.value) := by
  intro s hs
  unfold queryControl
  rw [renumberSlide_query index slide s hs]
  cases querySelector s slide.controls with
  | none => rfl
  | some k =>
    simp only [Option.some_bind, renumberSlide_getElem?]
    cases hc : slide.controls[k]? with
    | none => rfl
    | some c =>
      simp only [Option.map_some', Option.some.injEq]
      rcases renamedControl_cases index slide.controls k c hc with ⟨t, _, _, _, he⟩ | ⟨_, he⟩
      · rw [he]; rfl
      · rw [he]

theorem updateRemoveButtons_map (f : Block → α)
    (hf : ∀ (slide : Block) (d : String), f { slide with removeDisplay := d } = f slide)
    (slides : List Block) : (updateRemoveButtons slides).map f = slides.map f := by
  unfold updateRemoveButtons
  rw [List.map_map]
  apply List.map_congr_left
  intro b _
  exact hf b _

theorem renumbered_map (f : Block → α)
    (hf : ∀ index slide, f (renumberSlide index slide) = f slide)
    (hd : ∀ (slide : Block) (d : String), f { slide with removeDisplay := d } = f slide)
    (slides : List Block) :
    (updateRemoveButtons (updateSlideNumbers slides)).map f = slides.map f := by
  rw [updateRemoveButtons_map f hd]
  exact updateSlideNumbersFrom_map f hf slides 0

theorem renumbered_getElem? (slides : List Block) (k : Nat) :
    (updateRemoveButtons (updateSlideNumbers slides))[k]? =
      slides[k]?.map (fun slide =>
        { renumberSlide k slide with
          removeDisplay := if slides.length > 1 then "block" else "none" }) := by
  rw [updateRemoveButtons_getElem?, updateSlideNumbers_getElem?, updateSlideNumbers_length,
    Option.map_map]
  rfl

/-- C9: `addSlide` is defined on every page state; from `n` blocks and counter
`c` it gives `n + 1` blocks: the previous blocks first, in the same order and
with the entered values unchanged, then the new block, whose inputs are empty
and which after the renumbering carries the field names of suffix `n` and the
header `Slide ` followed by `n + 1`; the counter becomes `c + 1`.  No call
decreases the counter: `removeSlide` and the removal callback leave it as it
is. -/
theorem addSlide_spec (p : Page) :
    (addSlide p).slides.length = p.slides.length + 1 ∧
    (addSlide p).slides.map (·.ident) = p.slides.map (·.ident) ++ [p.nextIdent] ∧
    (addSlide p).slides.map enteredValues =
      p.slides.map enteredValues ++ [[[], [], [], []]] ∧
    (∃ newSlide, (addSlide p).slides[p.slides.length]? = some newSlide ∧
      (queryControl titleSel newSlide.controls).map (·.value) = some [] ∧
      fieldNames newSlide = namesFor p.slides.length ∧
      newSlide.header = "Slide " ++ toString (p.slides.length + 1)) ∧
    (addSlide p).slideCount = p.slideCount + 1 ∧
    (∀ e q, step p e = some q → p.slideCount ≤ q.slideCount) ∧
    (∀ slideElement, (removeSlide slideElement p).slideCount = p.slideCount) ∧
    (∀ k, (fireTimer k p).slideCount = p.slideCount) := by
  have hfire : ∀ k, (fireTimer k p).slideCount = p.slideCount := by
    intro k
    unfold fireTimer
    cases p.timers[k]? <;> rfl
  refine ⟨?_, ?_, ?_, ?_, rfl, ?_, fun _ => rfl, hfire⟩
  · rw [addSlide_slides, updateRemoveButtons_length, updateSlideNumbers_length]
    simp
  · rw [addSlide_slides, renumbered_map (·.ident) (fun _ _ => rfl) (fun _ _ => rfl)]
    simp [createSlideHtml]
  · rw [addSlide_slides, renumbered_map enteredValues renumberSlide_values (fun _ _ => rfl)]
    simp [createSlideHtml, enteredValues]
  · rw [addSlide_slides]
    refine ⟨{ renumberSlide p.slides.length (createSlideHtml p.slideCount p.nextIdent) with
      removeDisplay := if (p.slides ++ [createSlideHtml p.slideCount p.nextIdent]).length > 1
        then "block" else "none" }, ?_, ?_, ?_, ?_⟩
    · rw [renumbered_getElem?, List.getElem?_concat_length]
      rfl
    · show (queryControl titleSel (renumberSlide p.slides.length
        (createSlideHtml p.slideCount p.nextIdent)).controls).map (·.value) = some []
      rw [queryControl_renumberSlide_value _ _ titleSel (by simp [fieldSelectors])]
      unfold queryControl
      rw [(createSlideHtml_query p.slideCount p.nextIdent).1]
      rfl
    · exact renumberSlide_fieldNames _ _ (createSlideHtml_hasNamedInputs _ _)
    · rfl
  · intro e q h
    cases e with
    | add => cases h; exact Nat.le_succ _
    | remove el => cases h; exact Nat.le_refl _
    | timeout k =>
      simp only [step] at h
      split_ifs at h
      cases h
      rw [hfire]

/-! ## Sequences of calls -/

theorem mem_renumbered (slides : List Block) (b : Block)
    (hb : b ∈ updateRemoveButtons (updateSlideNumbers slides)) :
    ∃ k a, slides[k]? = some a ∧
      b = { renumberSlide k a with
        removeDisplay := if slides.length > 1 then "block" else "none" } := by
  obtain ⟨k, hk⟩ := List.mem_iff_getElem?.mp hb
  rw [renumbered_getElem?] at hk
  cases ha : slides[k]? with
  | none => rw [ha] at hk; simp at hk
  | some a =>
    rw [ha] at hk
    simp only [Option.map_some', Option.some.injEq] at hk
    exact ⟨k, a, ha, hk.symm⟩

theorem renumbered_hasNamedInputs (slides : List Block)
    (h : ∀ b ∈ slides, HasNamedInputs b) :
    ∀ b ∈ updateRemoveButtons (updateSlideNumbers slides), HasNamedInputs b := by
  intro b hb
  obtain ⟨k, a, ha, rfl⟩ := mem_renumbered slides b hb
  exact renumberSlide_hasNamedInputs k a (h a (List.getElem?_mem ha))

theorem renumbered_fieldNames (slides : List Block)
    (h : ∀ b ∈ slides, HasNamedInputs b) :
    (updateRemoveButtons (updateSlideNumbers slides)).map fieldNames =
      (List.range (updateRemoveButtons (updateSlideNumbers slides)).length).map namesFor := by
  rw [updateRemoveButtons_length, updateSlideNumbers_length]
  apply List.ext_getElem?
  intro k
  rw [List.getElem?_map, List.getElem?_map, renumbered_getElem?]
  cases ha : slides[k]? with
  | none =>
    have hk : slides.length ≤ k := List.getElem?_eq_none_iff.mp ha
    rw [List.getElem?_eq_none_iff.mpr (by simpa using hk)]
    rfl
  | some a =>
    have hk : k < slides.length := (List.getElem?_eq_some_iff.mp ha).1
    rw [List.getElem?_range hk]
    simp only [Option.map_some', Option.some.injEq]
    exact renumberSlide_fieldNames k a (h a (List.getElem?_mem ha))

theorem step_hasNamedInputs (p q : Page) (e : Event)
    (h : ∀ b ∈ p.slides, HasNamedInputs b) (hs : step p e = some q) :
    ∀ b ∈ q.slides, HasNamedInputs b := by
  cases e with
  | add =>
    cases hs
    rw [addSlide_slides]
    apply renumbered_hasNamedInputs
    intro b hb
    rcases List.mem_append.mp hb with hb | hb
    · exact h b hb
    · rw [List.mem_singleton.mp hb]
      exact createSlideHtml_hasNamedInputs _ _
  | remove el =>
    cases hs
    intro b hb
    obtain ⟨a, ha, rfl⟩ := List.mem_map.mp hb
    have := h a ha
    split_ifs
    · exact this
    · exact this
  | timeout k =>
    simp only [step] at hs
    split_ifs at hs with hk
    cases hs
    rw [fireTimer_slides k p p.timers[k] (List.getElem?_eq_getElem hk)]
    apply renumbered_hasNamedInputs
    intro b hb
    exact h b (List.mem_of_mem_filter hb)

theorem run_hasNamedInputs (es : List Event) :
    ∀ (p q : Page), (∀ b ∈ p.slides, HasNamedInputs b) → run p es = some q →
      ∀ b ∈ q.slides, HasNamedInputs b := by
  induction es with
  | nil => intro p q h hr; cases hr; exact h
  | cons e es ih =>
    intro p q h hr
    simp only [run] at hr
    cases hs : step p e with
    | none => rw [hs] at hr; simp at hr
    | some r =>
      rw [hs] at hr
      exact ih r q (step_hasNamedInputs p r e h hs) hr

theorem run_append (es : List Event) (e : Event) :
    ∀ p : Page, run p (es ++ [e]) = (run p es).bind (fun q => step q e) := by
  induction es with
  | nil =>
    intro p
    simp only [List.nil_append, run, Option.some_bind]
    cases step p e <;> rfl
  | cons a es ih =>
    intro p
    simp only [List.cons_append, run]
    cases step p a with
    | none => rfl
    | some r => exact ih r

/-- After `addSlide` or a removal callback on blocks that hold the four named
inputs, the field names are numbered by position. -/
theorem step_numbered (p q : Page) (e : Event)
    (h : ∀ b ∈ p.slides, HasNamedInputs b) (hs : step p e = some q)
    (hTimers : q.timers = []) :
    q.slides.map fieldNames = (List.range q.slides.length).map namesFor := by
  cases e with
  | add =>
    cases hs
    rw [addSlide_slides]
    apply renumbered_fieldNames
    intro b hb
    rcases List.mem_append.mp hb with hb | hb
    · exact h b hb
    · rw [List.mem_singleton.mp hb]
      exact createSlideHtml_hasNamedInputs _ _
  | remove el =>
    cases hs
    simp [removeSlide] at hTimers
  | timeout k =>
    simp only [step] at hs
    split_ifs at hs with hk
    cases hs
    rw [fireTimer_slides k p p.timers[k] (List.getElem?_eq_getElem hk)]
    apply renumbered_fieldNames
    intro b hb
    exact h b (List.mem_of_mem_filter hb)

/-- C1: for every finite sequence of `addSlide` calls, `removeSlide` calls and
removal callbacks (at least one call: the state after an add or a remove
completes) that starts from a page whose blocks each hold the four named
inputs and ends with no callback pending, the field names of the blocks, read
in document order, carry the suffixes `0, 1, ..., count - 1` for all four
fields; this holds whenever at least one block is left, and also when none
is. -/
theorem numbering_settled (p q : Page) (es : List Event)
    (hInputs : ∀ b ∈ p.slides, HasNamedInputs b) (hes : es ≠ [])
    (hrun : run p es = some q) (hTimers : q.timers = []) :
    q.slides.map fieldNames = (List.range q.slides.length).map namesFor := by
  rcases List.eq_nil_or_concat es with h | ⟨es1, e, rfl⟩
  · exact absurd h hes
  · rw [show es1.concat e = es1 ++ [e] by simp, run_append] at hrun
    cases hr : run p es1 with
    | none => rw [hr] at hrun; simp at hrun
    | some r =>
      rw [hr] at hrun
      exact step_numbered r q e (run_hasNamedInputs es1 p r hInputs hr) hrun hTimers

theorem numbering_settled_witness :
    (run (domContentLoaded [createSlideHtml 0 0])
      [Event.add, Event.remove 0, Event.add, Event.timeout 0]).map
        (fun q => q.slides.map fieldNames) = some [namesFor 0, namesFor 1] :=
  have hrun : run (domContentLoaded [createSlideHtml 0 0])
      [Event.add, Event.remove 0, Event.add, Event.timeout 0] =
      some (fireTimer 0 (addSlide (removeSlide 0
        (addSlide (domContentLoaded [createSlideHtml 0 0]))))) := by decide
  have h := numbering_settled (domContentLoaded [createSlideHtml 0 0]) _
    [Event.add, Event.remove 0, Event.add, Event.timeout 0] (by decide) (by decide) hrun
    (by decide)
  by rw [hrun, Option.map_some', h]; decide

/-- C4, evaluated: from a page loaded with one block, a click on the add
control, clicks on the two displayed remove controls and then the two removal
callbacks, in the order they were queued, leave no slide block. -/
theorem blocks_reach_zero :
    (domContentLoaded [createSlideHtml 0 0]).slides.length = 1 ∧
    (uiRun (domContentLoaded [createSlideHtml 0 0]) [Event.add]).map
      (fun q => q.slides.map (fun b => (b.ident, b.removeDisplay))) =
        some [(0, "block"), (1, "block")] ∧
    (uiRun (domContentLoaded [createSlideHtml 0 0])
      [Event.add, Event.remove 0, Event.remove 1, Event.timeout 0, Event.timeout 0]).map
        (fun q => (q.slides.length, q.timers)) = some (0, []) := by
  decide

/-! ## The window between `removeSlide` and its callback -/

theorem submitHandler_of_hasTitle (slides : List Block)
    (h : ∃ b ∈ slides, hasTitle b = true) : submitHandler slides = ⟨false, none⟩ := by
  have hp : (submitHandler slides).defaultPrevented = false := by
    rw [submitHandler_prevented]
    obtain ⟨b, hb, ht⟩ := h
    have hne : slides.isEmpty = false := by
      cases slides with
      | nil => simp at hb
      | cons _ _ => rfl
    have hany : slides.any hasTitle = true := List.any_eq_true.mpr ⟨b, hb, ht⟩
    rw [hne, hany]
    rfl
  revert hp
  unfold submitHandler
  dsimp only
  split_ifs <;> simp

theorem hasTitle_eq (slide : Block) :
    hasTitle slide =
      (((queryControl titleSel slide.controls).map (·.value)).map
        (fun v => truthy (trim v))).getD false := by
  unfold hasTitle
  cases queryControl titleSel slide.controls <;> rfl

theorem hasTitle_renumberSlide (index : Nat) (slide : Block) :
    hasTitle (renumberSlide index slide) = hasTitle slide := by
  rw [hasTitle_eq, hasTitle_eq,
    queryControl_renumberSlide_value index slide titleSel (by simp [fieldSelectors])]

/-- A step that is not a removal callback of the element keeps every block of
that identity, with whatever renumbering and marking leave alone. -/
theorem step_keeps (f : Block → α)
    (hf : ∀ index slide, f (renumberSlide index slide) = f slide)
    (hd : ∀ (slide : Block) (d : String), f { slide with removeDisplay := d } = f slide)
    (hr : ∀ slide : Block, f { slide with removing := true } = f slide)
    (p q : Page) (e : Event) (slideElement : Nat) (a : α)
    (hmem : (slideElement, a) ∈ p.slides.map (fun b => (b.ident, f b)))
    (hs : step p e = some q)
    (hfree : ∀ k, e = Event.timeout k → p.timers[k]? ≠ some slideElement) :
    (slideElement, a) ∈ q.slides.map (fun b => (b.ident, f b)) := by
  have hg : ∀ slides : List Block,
      (updateRemoveButtons (updateSlideNumbers slides)).map (fun b => (b.ident, f b)) =
        slides.map (fun b => (b.ident, f b)) :=
    renumbered_map (fun b => (b.ident, f b))
      (fun i b => by show ((renumberSlide i b).ident, _) = _; rw [hf]; rfl)
      (fun b d => by show (b.ident, _) = _; rw [hd])
  cases e with
  | add =>
    cases hs
    rw [addSlide_slides, hg, List.map_append]
    exact List.mem_append_left _ hmem
  | remove el =>
    cases hs
    obtain ⟨b, hb, hbe⟩ := List.mem_map.mp hmem
    apply List.mem_map.mpr
    refine ⟨if b.ident = el then { b with removing := true } else b, ?_, ?_⟩
    · exact List.mem_map.mpr ⟨b, hb, rfl⟩
    · rw [← hbe]
      split_ifs
      · show (b.ident, _) = _; rw [hr]
      · rfl
  | timeout k =>
    simp only [step] at hs
    split_ifs at hs with hk
    cases hs
    have hne : p.timers[k] ≠ slideElement := by
      intro h
      exact hfree k rfl (by rw [List.getElem?_eq_getElem hk, h])
    rw [fireTimer_slides k p p.timers[k] (List.getElem?_eq_getElem hk), hg]
    obtain ⟨b, hb, hbe⟩ := List.mem_map.mp hmem
    apply List.mem_map.mpr
    refine ⟨b, List.mem_filter.mpr ⟨hb, ?_⟩, hbe⟩
    have hid : b.ident = slideElement := congrArg Prod.fst hbe
    simp only [decide_eq_true_eq]
    rw [hid]
    exact fun h => hne h.symm

theorem run_keeps (f : Block → α)
    (hf : ∀ index slide, f (renumberSlide index slide) = f slide)
    (hd : ∀ (slide : Block) (d : String), f { slide with removeDisplay := d } = f slide)
    (hr : ∀ slide : Block, f { slide with removing := true } = f slide)
    (slideElement : Nat) (a : α) (es : List Event) :
    ∀ (p q : Page), (slideElement, a) ∈ p.slides.map (fun b => (b.ident, f b)) →
      run p es = some q → callbackFree slideElement p es = true →
      (slideElement, a) ∈ q.slides.map (fun b => (b.ident, f b)) := by
  induction es with
  | nil => intro p q hmem hrun _; cases hrun; exact hmem
  | cons e es ih =>
    intro p q hmem hrun hfree
    simp only [run] at hrun
    simp only [callbackFree, Bool.and_eq_true] at hfree
    cases hs : step p e with
    | none => rw [hs] at hrun; simp at hrun
    | some r =>
      rw [hs] at hrun hfree
      refine ih r q (step_keeps f hf hd hr p r e slideElement a hmem hs ?_) hrun hfree.2
      intro k hk
      subst hk
      simpa using hfree.1

theorem removeSlide_map (f : Block → α)
    (hr : ∀ slide : Block, f { slide with removing := true } = f slide)
    (slideElement : Nat) (p : Page) :
    (removeSlide slideElement p).slides.map f = p.slides.map f := by
  unfold removeSlide
  simp only [List.map_map]
  apply List.map_congr_left
  intro b _
  simp only [Function.comp_apply]
  split_ifs
  · exact hr b
  · rfl

/-- C10: a block on which `removeSlide` was called is marked and stays in the
block list in every state reached before a removal callback of it runs; there
the submit listener still counts its title (a form whose non-blank title is
the one of that block is accepted) and an `addSlide` renumbers it by its
position like any other block; when the callback runs the block is taken out
of the list, the other blocks keep their order and values, and they are
renumbered by position. -/
theorem removeSlide_window (p0 : Page) (slideElement : Nat)
    (hAtt : slideElement ∈ p0.slides.map (·.ident)) :
    (∀ b ∈ (removeSlide slideElement p0).slides, b.ident = slideElement → b.removing = true) ∧
    (∀ es q, run (removeSlide slideElement p0) es = some q →
      callbackFree slideElement (removeSlide slideElement p0) es = true →
      slideElement ∈ q.slides.map (·.ident) ∧
      ((∃ b ∈ p0.slides, b.ident = slideElement ∧ hasTitle b = true) →
        submitHandler q.slides = ⟨false, none⟩)) ∧
    (∀ (q : Page) (i : Nat) (b : Block), q.slides[i]? = some b →
      ∃ b', (addSlide q).slides[i]? = some b' ∧
        b'.ident = b.ident ∧ b'.removing = b.removing ∧
        b'.header = "Slide " ++ toString (i + 1) ∧
        b'.dataSlideIndex = toString i ∧
        (∀ s ∈ fieldSelectors, ∀ c, queryControl s b'.controls = some c →
          c.name = s.pre ++ toString i) ∧
        (HasNamedInputs b → fieldNames b' = namesFor i)) ∧
    (∀ (p : Page) (k : Nat), p.timers[k]? = some slideElement →
      (fireTimer k p).slides.map (·.ident) =
        (p.slides.map (·.ident)).filter (fun x => x ≠ slideElement) ∧
      slideElement ∉ (fireTimer k p).slides.map (·.ident) ∧
      (fireTimer k p).slides.map enteredValues =
        (p.slides.filter (fun b => b.ident ≠ slideElement)).map enteredValues ∧
      (fireTimer k p).timers = p.timers.eraseIdx k ∧
      ∀ (i : Nat) (b : Block), (fireTimer k p).slides[i]? = some b →
        b.header = "Slide " ++ toString (i + 1) ∧
        b.dataSlideIndex = toString i ∧
        (∀ s ∈ fieldSelectors, ∀ c, queryControl s b.controls = some c →
          c.name = s.pre ++ toString i)) := by
  refine ⟨?_, ?_, ?_, ?_⟩
  · intro b hb hid
    unfold removeSlide at hb
    obtain ⟨a, _, rfl⟩ := List.mem_map.mp hb
    by_cases h : a.ident = slideElement
    · rw [if_pos h]
    · rw [if_neg h] at hid
      exact absurd hid h
  · intro es q hrun hfree
    have keep : ∀ a : Bool, (slideElement, a) ∈ p0.slides.map (fun b => (b.ident, hasTitle b)) →
        (slideElement, a) ∈ q.slides.map (fun b => (b.ident, hasTitle b)) := by
      intro a ha
      refine run_keeps hasTitle hasTitle_renumberSlide (fun _ _ => rfl) (fun _ => rfl)
        slideElement a es _ q ?_ hrun hfree
      rw [removeSlide_map (fun b => (b.ident, hasTitle b)) (fun _ => rfl)]
      exact ha
    constructor
    · obtain ⟨b, hb, hbe⟩ := List.mem_map.mp hAtt
      have h1 := keep (hasTitle b) (List.mem_map.mpr ⟨b, hb, by rw [← hbe]⟩)
      obtain ⟨c, hc, hce⟩ := List.mem_map.mp h1
      exact List.mem_map.mpr ⟨c, hc, congrArg Prod.fst hce⟩
    · rintro ⟨b, hb, hid, ht⟩
      have h1 := keep true (List.mem_map.mpr ⟨b, hb, by rw [hid, ht]⟩)
      obtain ⟨c, hc, hce⟩ := List.mem_map.mp h1
      exact submitHandler_of_hasTitle q.slides ⟨c, hc, congrArg Prod.snd hce⟩
  · intro q i b hb
    have hi : i < q.slides.length := (List.getElem?_eq_some_iff.mp hb).1
    refine ⟨{ renumberSlide i b with
      removeDisplay := if (q.slides ++ [createSlideHtml q.slideCount q.nextIdent]).length > 1
        then "block" else "none" }, ?_, rfl, rfl, rfl, rfl, ?_, ?_⟩
    · rw [addSlide_slides, renumbered_getElem?, List.getElem?_append_left hi, hb]
      rfl
    · exact renumberSlide_name_of_query i b
    · exact renumberSlide_fieldNames i b
  · intro p k hk
    have hids : (fireTimer k p).slides.map (·.ident) =
        (p.slides.map (·.ident)).filter (fun x => x ≠ slideElement) := by
      rw [fireTimer_slides k p slideElement hk,
        renumbered_map (·.ident) (fun _ _ => rfl) (fun _ _ => rfl), List.filter_map]
      rfl
    refine ⟨hids, ?_, ?_, ?_, ?_⟩
    · rw [hids]
      intro h
      have := (List.mem_filter.mp h).2
      simp at this
    · rw [fireTimer_slides k p slideElement hk,
        renumbered_map enteredValues renumberSlide_values (fun _ _ => rfl)]
    · unfold fireTimer
      rw [hk]
    · intro i b hb
      rw [fireTimer_slides k p slideElement hk, renumbered_getElem?] at hb
      cases ha : (p.slides.filter (fun slide => slide.ident ≠ slideElement))[i]? with
      | none => rw [ha] at hb; simp at hb
      | some a =>
        rw [ha] at hb
        simp only [Option.map_some', Option.some.injEq] at hb
        subst hb
        exact ⟨rfl, rfl, renumberSlide_name_of_query i a⟩

theorem removeSlide_window_witness :
    0 ∈ (addSlide (removeSlide 0
      (domContentLoaded [typedSlide 0 0 [72, 105], createSlideHtml 1 1]))).slides.map (·.ident) ∧
    submitHandler (addSlide (removeSlide 0
      (domContentLoaded [typedSlide 0 0 [72, 105], createSlideHtml 1 1]))).slides =
        ⟨false, none⟩ :=
  have h := (removeSlide_window
    (domContentLoaded [typedSlide 0 0 [72, 105], createSlideHtml 1 1]) 0 (by decide)).2.1
    [Event.add] _ rfl (by decide)
  ⟨h.1, h.2 (by decide)⟩

end SlideForm
